import Mathlib

/-!
Verification development for the scraping-scripts data-collection repository.

The Python sources are shallowly embedded:

* `src/helper.py` — `get_request_with_timeout`, `split_rss_feed`;
* `src/producer.py` — `Producer.publish` and its `__publish_rss` /
  `__publish_twitter` branches;
* `src/data_collection.py` — the `main` driver: the fan-in loop over
  completed futures with its `except RequestException` / `except Exception`
  handlers, the success/failure counters, and the `job_metadata` record
  inserted into the job collection;
* `src/data_streamers.py` — `TwitterDataStreamer._get_current_trends`
  (rule reconciliation against the current trends) and
  `TwitterStreamingClient.on_response` / `_process_tweet`;
* `src/data_collectors.py` — `TwitterDataCollector._update_current_trends`.

Modelling conventions:

* Python exceptions are the inductive `PyErr`; fallible code returns
  `Except PyErr _`.  Every `PyErr` constructor stands for a subclass of
  Python's `Exception`, so a bare `except Exception` handler catches all of
  them.
* External collaborators (network, the feedparser library, the Twitter API,
  the Kafka broker) are parameters: a fetch outcome is passed in as an
  `Except PyErr _` value, `feedparser.parse` is a `String → ParsedFeed`
  argument, and the broker records the messages it was handed.
* `uuid.uuid4()` key generation and the server-side assignment of stream-rule
  ids are modelled as a fresh-counter supply: the k-th generated key/id is
  `start + k`, which captures the freshness/uniqueness the collaborators
  provide.
* `json.dumps` is embedded structurally over a `Json` inductive with
  Python's default separators; string escaping covers the quote, backslash
  and common control characters (the inputs considered are ASCII without
  further control characters, where Python's output coincides).
-/

/-- Python exceptions raised in the embedded fragments.  Each constructor is
a subclass of `Exception`: `requestException` is
`requests.exceptions.RequestException`, `attributeError` is `AttributeError`
(e.g. `None.text`), `kafkaError` covers the Kafka publish errors, and
`exception` is any other `Exception`. -/
inductive PyErr where
  | requestException (msg : String)
  | attributeError (msg : String)
  | kafkaError (msg : String)
  | exception (msg : String)
deriving DecidableEq, Repr

/-- A `requests.Response` object, reduced to the one attribute the driver
reads. -/
structure HttpResponse where
  text : String
deriving DecidableEq, Repr

/-- JSON values, for the payloads handed to `json.dumps`. -/
inductive Json where
  | str (s : String)
  | num (n : Int)
  | bool (b : Bool)
  | null
  | arr (xs : List Json)
  | obj (fields : List (String × Json))
deriving Repr

/-- Escaping of one character inside a Python `json.dumps` string literal. -/
def jsonEscapeChar (c : Char) : String :=
  if c = '"' then "\\\""
  else if c = '\\' then "\\\\"
  else if c = '\n' then "\\n"
  else if c = '\t' then "\\t"
  else if c = '\r' then "\\r"
  else String.singleton c

/-- Escaping of a string for `json.dumps`. -/
def jsonEscape (s : String) : String :=
  String.join (s.toList.map jsonEscapeChar)

mutual
/-- Embedding of `json.dumps` with Python's default separators: `", "` between items and
`": "` between a key and a value. -/
def jsonDumps : Json → String
  | .str s => "\"" ++ jsonEscape s ++ "\""
  | .num n => toString n
  | .bool b => if b then "true" else "false"
  | .null => "null"
  | .arr xs => "[" ++ jsonDumpsArr xs ++ "]"
  | .obj fs => "\x7b" ++ jsonDumpsObj fs ++ "\x7d"

/-- Comma-separated rendering of a JSON array's elements. -/
def jsonDumpsArr : List Json → String
  | [] => ""
  | [x] => jsonDumps x
  | x :: y :: xs => jsonDumps x ++ ", " ++ jsonDumpsArr (y :: xs)

/-- Comma-separated rendering of a JSON object's key/value pairs. -/
def jsonDumpsObj : List (String × Json) → String
  | [] => ""
  | [p] => "\"" ++ jsonEscape p.1 ++ "\": " ++ jsonDumps p.2
  | p :: q :: ps =>
      "\"" ++ jsonEscape p.1 ++ "\": " ++ jsonDumps p.2 ++ ", " ++
        jsonDumpsObj (q :: ps)
end

/-- Whether the first character list is an initial segment of the second. -/
def charsStartWith : List Char → List Char → Bool
  | [], _ => true
  | _ :: _, [] => false
  | a :: as, b :: bs => a == b && charsStartWith as bs

/-- Whether the second character list occurs contiguously in the first. -/
def charsContain : List Char → List Char → Bool
  | [], needle => needle.isEmpty
  | b :: bs, needle => charsStartWith needle (b :: bs) || charsContain bs needle

/-- Python's substring test `needle in haystack` on `str`. -/
def strContains (haystack needle : String) : Bool :=
  charsContain haystack.toList needle.toList

deriving instance DecidableEq for Except

/-! ## src/helper.py -/

/-- Embedding of `helper.get_request_with_timeout`: the returned closure performs
`requests.get(url, timeout=timeout)` and catches every exception, returning
`None` instead.  The network outcome of the GET request (the external
collaborator) is passed in as an `Except` value. -/
def get_request (net : Except PyErr HttpResponse) : Option HttpResponse :=
  match net with
  | .ok res => some res
  | .error _ => none

/-- Result of `feedparser.parse` (external collaborator), reduced to the
attributes `split_rss_feed` reads: `parsed.feed.title` and
`parsed.entries`, each entry a JSON-like dictionary. -/
structure ParsedFeed where
  title : String
  entries : List (List (String × Json))
deriving Repr

/-- Python `dict(entry, **\x7bk: v\x7d)`: the entry's keys in order, with `k`
overwritten in place when already present and appended otherwise. -/
def setField (entry : List (String × Json)) (k : String) (v : Json) :
    List (String × Json) :=
  if entry.any (fun p => p.1 == k) then
    entry.map (fun p => if p.1 == k then (k, v) else p)
  else entry ++ [(k, v)]

/-- Embedding of `helper.split_rss_feed`: parse the raw feed and return one dictionary per
entry, each with `"feed_source"` set to the parsed feed's title. -/
def split_rss_feed (feedparse : String → ParsedFeed) (full_feed : String) :
    List (List (String × Json)) :=
  let parsed := feedparse full_feed
  parsed.entries.map (fun entry => setField entry "feed_source" (Json.str parsed.title))

/-- Dictionary lookup on an embedded JSON object: the value at the first
occurrence of the key. -/
def getField (entry : List (String × Json)) (k : String) : Option Json :=
  (entry.find? (fun p => p.1 == k)).map (fun p => p.2)

/-! ## src/producer.py -/

/-- One message handed to `KafkaProducer.send`.  The `uuid.uuid4()` message
key is modelled by the fresh-key counter: the k-th key generated in a call
starting at `keyStart` is `keyStart + k`. -/
structure Msg where
  topic : String
  key : Nat
  value : String
deriving DecidableEq, Repr

/-- A Python value passed as the `message` argument of `Producer.publish`:
either a `str` or a list of JSON dictionaries. -/
inductive Payload where
  | str (s : String)
  | list (l : List Json)
deriving Repr

/-- Embedding of `Producer.__publish_rss`: split the raw feed and send one message per
entry, each with a fresh key and `json.dumps` of the entry as value. -/
def publishRss (feedparse : String → ParsedFeed) (topic raw_feed : String)
    (keyStart : Nat) : List Msg :=
  let messages := split_rss_feed feedparse raw_feed
  messages.enum.map (fun it => ⟨topic, keyStart + it.1, jsonDumps (Json.obj it.2)⟩)

/-- Python iteration `for message in messages` over the value handed to
`Producer.__publish_twitter`: iterating a `str` yields its characters as
one-character strings; iterating a list yields its elements. -/
def pyIterJson : Payload → List Json
  | .str s => s.toList.map (fun c => Json.str (String.singleton c))
  | .list l => l

/-- Embedding of `Producer.__publish_twitter`: send one message per element of the
iteration over `tweets`, each with a fresh key and `json.dumps` of the
element as value. -/
def publishTwitter (topic : String) (tweets : Payload) (keyStart : Nat) :
    List Msg :=
  (pyIterJson tweets).enum.map (fun it => ⟨topic, keyStart + it.1, jsonDumps it.2⟩)

/-- Embedding of `Producer.publish`: dispatch on the topic family (`"rss" in topic`,
`"twitter" in topic`, default) and produce the broker messages of one call.
In the default branch `bytes(message, encoding='utf-8')` requires a `str`
message; a list raises `TypeError` there, as does `feedparser` on a
non-string feed. -/
def Producer.publish (feedparse : String → ParsedFeed) (topic : String)
    (message : Payload) (keyStart : Nat) : Except PyErr (List Msg) :=
  if strContains topic "rss" then
    match message with
    | .str raw => .ok (publishRss feedparse topic raw keyStart)
    | .list _ => .error (.exception "TypeError")
  else if strContains topic "twitter" then
    .ok (publishTwitter topic message keyStart)
  else
    match message with
    | .str s => .ok [⟨topic, keyStart, s⟩]
    | .list _ => .error (.exception "TypeError")

/-! ## src/data_collection.py — the batch driver `main` -/

/-- A value returned by `future.result()` in the fan-in loop: a `str` (the
Reddit worker), a list of records (the Twitter worker), a
`requests.Response` object, or `None` (the RSS worker after a swallowed
request error). -/
inductive PyVal where
  | str (s : String)
  | list (l : List Json)
  | resp (r : HttpResponse)
  | none
deriving Repr

/-- The driver's message extraction: `response` when it is a `str` or a
`list`, otherwise `response.text`; accessing `.text` on `None` raises
`AttributeError`. -/
def getMessage : PyVal → Except PyErr Payload
  | .str s => .ok (.str s)
  | .list l => .ok (.list l)
  | .resp r => .ok (.str r.text)
  | .none => .error (.attributeError "NoneType object has no attribute text")

/-- The externally determined outcome of one harvest item in the fan-in
loop: what its `future.result()` does (returns a value or re-raises the
worker's exception), and whether `producer.publish` raises for its
message (`none` = the publish succeeds). -/
structure ItemRun where
  fetch : Except PyErr PyVal
  publishErr : Option PyErr
deriving Repr

/-- The body of the driver's `try` block for one completed future:
`future.result()`, message extraction, then `producer.publish`. -/
def stepItemRaw (it : ItemRun) : Except PyErr Unit :=
  match it.fetch with
  | .error e => .error e
  | .ok v =>
    match getMessage v with
    | .error e => .error e
    | .ok _message =>
      match it.publishErr with
      | some e => .error e
      | Option.none => .ok ()

/-- Classification of one loop iteration: which counter it increments. -/
inductive StepClass where
  | success
  | failedRequest
  | failedUnexpected
deriving DecidableEq, Repr

/-- One iteration of the fan-in loop with its handlers: `except
RequestException` (warning log, counted failed) then `except Exception`
(error log with traceback, counted failed).  Every `PyErr` constructor is an
`Exception` subclass, so the second handler catches everything the first
does not; an uncaught exception would surface as `.error`. -/
def tryStep (it : ItemRun) : Except PyErr StepClass :=
  match stepItemRaw it with
  | .ok _ => .ok .success
  | .error e =>
    match e with
    | .requestException _ => .ok .failedRequest
    | _ => .ok .failedUnexpected

/-- Whether an item's iteration ends in the success branch. -/
def stepSucceeds (it : ItemRun) : Bool :=
  match tryStep it with
  | .ok .success => true
  | _ => false

/-- The driver's fan-in loop over `as_completed(futures)`, threading the
`count_successful`/`count_failed` counters; an exception escaping an
iteration would abort the loop as `.error`. -/
def mainLoopE : List ItemRun → Nat × Nat → Except PyErr (Nat × Nat)
  | [], c => .ok c
  | it :: rest, c =>
    match tryStep it with
    | .error e => .error e
    | .ok .success => mainLoopE rest (c.1 + 1, c.2)
    | .ok _ => mainLoopE rest (c.1, c.2 + 1)

/-- A value stored in the `job_metadata` record. -/
inductive MetaVal where
  | time (t : Nat)
  | str (s : String)
  | nat (n : Nat)
deriving DecidableEq, Repr

/-- The `job_metadata` dictionary built at the end of `main`, with its keys
in source order.  `(end_time - start_time).seconds` is the timedelta's
within-day seconds, i.e. the elapsed seconds modulo 86400 for a
non-negative span. -/
def job_metadata (start_time end_time : Nat) (data_source : String)
    (count_successful count_failed : Nat) (logfile : String) :
    List (String × MetaVal) :=
  [("start_time", .time start_time),
   ("end_time", .time end_time),
   ("data_source", .str data_source),
   ("duration_in_seconds", .nat ((end_time - start_time) % 86400)),
   ("successful_events", .nat count_successful),
   ("failed_events", .nat count_failed),
   ("logfile", .str logfile)]

/-- The driver run from item enumeration to the single
`job_collection.insert_one(job_metadata)`: enumerating the items
(`get_data_collection_futures`) may raise, and `main` has no handler for
that, so the exception propagates and the insert is never reached;
otherwise the fan-in loop runs and exactly one record is written. -/
def mainRun (start_time end_time : Nat) (data_source logfile : String)
    (enum : Except PyErr (List ItemRun)) :
    Except PyErr (List (String × MetaVal)) :=
  match enum with
  | .error e => .error e
  | .ok items =>
    match mainLoopE items (0, 0) with
    | .error e => .error e
    | .ok c => .ok (job_metadata start_time end_time data_source c.1 c.2 logfile)

/-- Outcome of one RSS harvest item: the worker is
`get_request_with_timeout`'s closure, so the future's value is the wrapped
network outcome (`Response` on success, `None` after any request
exception); the future itself never raises. -/
def rssItemRun (net : Except PyErr HttpResponse) (publishErr : Option PyErr) :
    ItemRun :=
  ⟨.ok (match get_request net with
        | some r => PyVal.resp r
        | Option.none => PyVal.none), publishErr⟩

/-! ## src/data_streamers.py — trend reconciliation -/

/-- A `tweepy.StreamRule` held by the streaming client.  The server-side id
assigned on `add_rules` is modelled by the fresh-id counter. -/
structure StreamRule where
  id : Nat
  value : String
  tag : String
deriving DecidableEq, Repr

/-- The query built for a trend in `_get_current_trends`. -/
def ruleQuery (trend : String) : String :=
  trend ++ " -is:retweet -is:reply -is:nullcast lang:en"

/-- The first loop of `TwitterDataStreamer._get_current_trends`: iterate
over the active rules; a rule whose tag is among the trends removes the
first occurrence of that tag from the (mutated) trend list, any other rule
has its id appended to `delete_ids`.  Returns `(delete_ids, trends left)`. -/
def reconcileLoop : List StreamRule → List String → List Nat × List String
  | [], trends => ([], trends)
  | r :: rs, trends =>
    if r.tag ∈ trends then
      reconcileLoop rs (trends.erase r.tag)
    else
      let p := reconcileLoop rs trends
      (r.id :: p.1, p.2)

/-- A mutation request issued to the streaming client during one
reconciliation pass.  Added rules are recorded as `(value, tag)` pairs,
ids being assigned server-side. -/
inductive ClientCall where
  | deleteRules (ids : List Nat)
  | addRules (rules : List (String × String))
deriving DecidableEq, Repr

/-- The rules created in the second loop of `_get_current_trends`, with the
server-assigned ids modelled as `nextId`, `nextId + 1`, …. -/
def newRulesFor (remaining : List String) (nextId : Nat) : List StreamRule :=
  remaining.enum.map (fun it => ⟨nextId + it.1, ruleQuery it.2, it.2⟩)

/-- Result of one reconciliation pass: the client's active rules afterwards,
the mutation calls made (in order), and the next fresh id. -/
structure PassResult where
  state : List StreamRule
  calls : List ClientCall
  nextId : Nat
deriving Repr

/-- The reconciliation core of `TwitterDataStreamer._get_current_trends`,
after the trends have been fetched: compute `delete_ids` and the leftover
trends, call `delete_rules` only when `delete_ids` is non-empty, then build
`new_rules` and call `add_rules` only when it is non-empty.  `delete_rules`
removes the active rules with the given ids; `add_rules` appends the new
rules with fresh server-assigned ids. -/
def getCurrentTrends (rules : List StreamRule) (trends : List String)
    (nextId : Nat) : PassResult :=
  let p := reconcileLoop rules trends
  let delete_ids := p.1
  let remaining := p.2
  let state1 := if delete_ids.length > 0 then
      rules.filter (fun r => decide (r.id ∉ delete_ids))
    else rules
  let new_rules := newRulesFor remaining nextId
  let state2 := if new_rules.length > 0 then state1 ++ new_rules else state1
  let calls :=
    (if delete_ids.length > 0 then [ClientCall.deleteRules delete_ids] else []) ++
    (if new_rules.length > 0 then
        [ClientCall.addRules (remaining.map (fun t => (ruleQuery t, t)))]
      else [])
  ⟨state2, calls, nextId + new_rules.length⟩

/-- The whole of `TwitterDataStreamer._get_current_trends` as one refresh
pass: `self._API.get_place_trends(1)` (external collaborator, passed in as
its outcome) has no surrounding `try`, so a raised exception propagates
before any rule is read or mutated; on success the reconciliation core
runs. -/
def get_current_trends_run (fetch : Except PyErr (List String))
    (rules : List StreamRule) (nextId : Nat) : Except PyErr PassResult :=
  match fetch with
  | .error e => .error e
  | .ok trends => .ok (getCurrentTrends rules trends nextId)

/-! ## src/data_collectors.py — `TwitterDataCollector._update_current_trends` -/

/-- The class-level `_current_trends` cache of `TwitterDataCollector`. -/
structure TrendCache where
  queries : List String
  fetched_at : Option Nat
deriving DecidableEq, Repr

/-- Embedding of `TwitterDataCollector._update_current_trends`: fetch the place trends
(no surrounding `try`, so a raised exception propagates and the cache is
not touched), deduplicate the names through a `set`, and store them with
the fetch time.  Python's set iteration order is modelled as
first-occurrence order. -/
def update_current_trends (fetch : Except PyErr (List String)) (now : Nat)
    (_cache : TrendCache) : Except PyErr TrendCache :=
  match fetch with
  | .error e => .error e
  | .ok names => .ok ⟨names.dedup, some now⟩

/-! ## src/data_streamers.py — `TwitterStreamingClient` -/

/-- A user from the stream response's `includes`, reduced to the attributes
`_process_tweet` reads. -/
structure TwitterUser where
  username : String
  verified : Bool
  followers_count : Int
deriving DecidableEq, Repr

/-- A place from the stream response's `includes`. -/
structure TwitterPlace where
  full_name : String
deriving DecidableEq, Repr

/-- A `tweepy.Tweet` reduced to the attributes `_process_tweet` reads.
`created_at` is carried in its `str(...)` form; `geo` is the geo object
reduced to its `place_id` (absent when the tweet has no geo). -/
structure Tweet where
  id : Int
  text : String
  created_at : String
  public_metrics : Json
  author_id : Int
  geo : Option String
deriving Repr

/-- The `includes` object of a stream response, behaving as id-keyed
mappings of users and places; a `none` component models the key being
absent from `includes`. -/
structure Includes where
  users : Option (List (Int × TwitterUser))
  places : Option (List (String × TwitterPlace))
deriving Repr

/-- The `author` dictionary built by `_process_tweet`: empty unless
`'users' in includes` and the author id is found there. -/
def authorObj (includes : Includes) (author_id : Int) : List (String × Json) :=
  match includes.users with
  | some users =>
    match users.find? (fun p => p.1 == author_id) with
    | some p =>
      [("username", Json.str p.2.username),
       ("verified", Json.bool p.2.verified),
       ("num_followers", Json.num p.2.followers_count)]
    | Option.none => []
  | Option.none => []

/-- The `place` string built by `_process_tweet`: the full name of the
tweet's place when `'places' in includes`, the tweet has a geo, and its
place id is found there; `''` otherwise. -/
def placeName (includes : Includes) (geo : Option String) : String :=
  match includes.places, geo with
  | some places, some place_id =>
    match places.find? (fun p => p.1 == place_id) with
    | some p => p.2.full_name
    | Option.none => ""
  | _, _ => ""

/-- The `result` dictionary built by `_process_tweet`, keys in assignment
order; `place` is only present when the place string is non-empty, and
`trend` is the tag of `rules[0]`. -/
def resultFields (tweet : Tweet) (includes : Includes) (firstTag : String) :
    List (String × Json) :=
  let author := authorObj includes tweet.author_id
  let place := placeName includes tweet.geo
  [("tweet_id", Json.num tweet.id),
   ("text", Json.str tweet.text),
   ("created_at", Json.str tweet.created_at),
   ("metrics", tweet.public_metrics),
   ("author", Json.obj author)] ++
  (if place = "" then [] else [("place", Json.str place)]) ++
  [("trend", Json.str firstTag)]

/-- Embedding of `TwitterStreamingClient._process_tweet`: build the result dictionary and
return `json.dumps([result])`.  `result['trend'] = rules[0].tag` raises
`IndexError` when the matching-rules list is empty. -/
def process_tweet (tweet : Tweet) (includes : Includes)
    (rules : List StreamRule) : Except PyErr String :=
  match rules with
  | [] => .error (.exception "IndexError: list index out of range")
  | r :: _ => .ok (jsonDumps (Json.arr [Json.obj (resultFields tweet includes r.tag)]))

/-- A `tweepy.StreamResponse` reduced to the components `on_response`
reads. -/
structure StreamResponse where
  data : Tweet
  includes : Includes
  matching_rules : List StreamRule
deriving Repr

/-- Embedding of `TwitterStreamingClient.on_response`: process the tweet and hand the
resulting value to `self.producer.publish('twitter-stream', result_json)`. -/
def on_response (feedparse : String → ParsedFeed) (response : StreamResponse)
    (keyStart : Nat) : Except PyErr (List Msg) :=
  match process_tweet response.data response.includes response.matching_rules with
  | .error e => .error e
  | .ok result_json =>
    Producer.publish feedparse "twitter-stream" (.str result_json) keyStart

/-- Lookup of a field in a `job_metadata` record. -/
def getMeta (record : List (String × MetaVal)) (k : String) : Option MetaVal :=
  (record.find? (fun p => p.1 == k)).map (fun p => p.2)

/-! ## Concrete fixtures used as explicit inputs -/

/-- A concrete streamed tweet: id 5, text `"hi"`, no geo. -/
def tweet0 : Tweet :=
  { id := 5, text := "hi", created_at := "t", public_metrics := Json.obj [],
    author_id := 1, geo := Option.none }

/-- A stream response whose `includes` carries no users and no places. -/
def includes0 : Includes := { users := Option.none, places := Option.none }

/-- A single matching rule tagged `"x"`. -/
def rules0 : List StreamRule := [⟨1, "q", "x"⟩]

/-- A concrete stream response with exactly one structured record. -/
def resp0 : StreamResponse := ⟨tweet0, includes0, rules0⟩

/-- A feed parser standing in for the unused `feedparser` collaborator of a
producer handling a twitter topic. -/
def fpEmpty : String → ParsedFeed := fun _ => ⟨"", []⟩

/-- A feed parser returning a three-entry feed titled `"World News"`. -/
def fp3 : String → ParsedFeed := fun _ =>
  ⟨"World News",
   [[("title", Json.str "a1")],
    [("title", Json.str "a2")],
    [("title", Json.str "a3"), ("feed_source", Json.str "stale")]]⟩

lemma tryStep_ne_error (it : ItemRun) (e : PyErr) : tryStep it ≠ .error e := by
  unfold tryStep
  cases h : stepItemRaw it with
  | ok _ => simp
  | error e' => cases e' <;> simp

lemma mainLoopE_eq (items : List ItemRun) (c : Nat × Nat) :
    mainLoopE items c =
      .ok (c.1 + items.countP stepSucceeds,
           c.2 + items.countP (fun it => !stepSucceeds it)) := by
  induction items generalizing c with
  | nil => simp [mainLoopE]
  | cons it rest ih =>
    rw [mainLoopE]
    cases h : tryStep it with
    | error e => exact absurd h (tryStep_ne_error it e)
    | ok cls =>
      cases cls with
      | success =>
        have hs : stepSucceeds it = true := by unfold stepSucceeds; rw [h]
        rw [ih]
        simp [List.countP_cons, hs, Prod.ext_iff]
        omega
      | failedRequest =>
        have hs : stepSucceeds it = false := by unfold stepSucceeds; rw [h]
        rw [ih (c.1, c.2 + 1)]
        simp [List.countP_cons, hs, Prod.ext_iff]
        omega
      | failedUnexpected =>
        have hs : stepSucceeds it = false := by unfold stepSucceeds; rw [h]
        rw [ih (c.1, c.2 + 1)]
        simp [List.countP_cons, hs, Prod.ext_iff]
        omega

theorem countP_not_add (l : List ItemRun) :
    l.countP stepSucceeds + l.countP (fun it => !stepSucceeds it) = l.length := by
  induction l with
  | nil => simp
  | cons it rest ih =>
    by_cases h : stepSucceeds it = true <;> simp [List.countP_cons, h] <;> omega

/-- C1: over any batch of N submitted items, the fan-in loop completes
without an exception escaping, counting each item exactly once according to
its own outcome, and `count_successful + count_failed = N` (including
N = 0). -/
theorem spec_C1_fan_in_completeness (items : List ItemRun) :
    mainLoopE items (0, 0) =
      .ok (items.countP stepSucceeds, items.countP (fun it => !stepSucceeds it)) ∧
    items.countP stepSucceeds + items.countP (fun it => !stepSucceeds it) =
      items.length := by
  refine ⟨?_, countP_not_add items⟩
  simpa using mainLoopE_eq items (0, 0)

/-- C4 counterexample: a timeout of the RSS GET request is swallowed by
`get_request_with_timeout` (the future returns `None`), so the driver
classifies the item through the generic `except Exception` branch, not the
`except RequestException` (warning) branch the claim describes. -/
theorem spec_C4_counterexample :
    tryStep (rssItemRun (.error (.requestException "ReadTimeout")) Option.none) =
      .ok .failedUnexpected ∧
    tryStep (rssItemRun (.error (.requestException "ReadTimeout")) Option.none) ≠
      .ok .failedRequest := by
  constructor
  · rfl
  · decide

/-- C4 amended: any request exception in the RSS fetch is swallowed by the
wrapper (the future yields `None`), after which the driver fails on
`None.text` and counts the item as failed through the generic `except
Exception` branch; only a `RequestException` raised out of
`future.result()` itself reaches the warning-level branch; and no item
outcome ever escapes the loop body. -/
theorem spec_C4_failure_classification :
    (∀ e pub, get_request (.error e) = Option.none ∧
      tryStep (rssItemRun (.error e) pub) = .ok .failedUnexpected) ∧
    (∀ it m, it.fetch = .error (.requestException m) →
      tryStep it = .ok .failedRequest) ∧
    (∀ it, ∃ cls, tryStep it = .ok cls) := by
  refine ⟨fun e pub => ⟨rfl, rfl⟩, fun it m hm => ?_, fun it => ?_⟩
  · unfold tryStep stepItemRaw
    rw [hm]
  · cases hstep : tryStep it with
    | ok cls => exact ⟨cls, rfl⟩
    | error e => exact absurd hstep (tryStep_ne_error it e)

/-- C4 witness: the amended classification applied at a concrete item whose
future re-raises a `RequestException`. -/
theorem spec_C4_witness :
    tryStep ⟨.error (.requestException "boom"), Option.none⟩ = .ok .failedRequest :=
  spec_C4_failure_classification.2.1
    ⟨.error (.requestException "boom"), Option.none⟩ "boom" rfl

/-- C5 counterexample: when `get_place_trends` raises, the refresh pass of
the streaming reconciler does not log-and-continue — it propagates the
exception instead of returning a reconciliation result. -/
theorem spec_C5_counterexample :
    get_current_trends_run (.error (.requestException "Connection aborted"))
        [⟨1, "qa", "a"⟩] 5 =
      .error (.requestException "Connection aborted") ∧
    (get_current_trends_run (.error (.requestException "Connection aborted"))
        [⟨1, "qa", "a"⟩] 5).isOk = false := by
  exact ⟨rfl, rfl⟩

/-- C5 amended: a failing trending-topics call has no surrounding handler,
so in both the streaming reconciler and the batch collector the exception
propagates unchanged; since it is raised before any rule or cache mutation,
the previous active rule set / trend cache is left untouched, but the
failure is neither caught nor logged by these functions. -/
theorem spec_C5_refresh_failure_propagates :
    (∀ e rules nextId,
      get_current_trends_run (.error e) rules nextId = .error e) ∧
    (∀ e now cache, update_current_trends (.error e) now cache = .error e) :=
  ⟨fun _ _ _ => rfl, fun _ _ _ => rfl⟩

/-- C8 counterexample: when item enumeration raises, `main` has no handler:
the run aborts with the exception and no run-summary record is written,
contrary to the claimed best-effort zero-count summary. -/
theorem spec_C8_counterexample :
    mainRun 0 10 "rss" "log" (.error (.exception "enumeration failed")) =
      .error (.exception "enumeration failed") ∧
    (mainRun 0 10 "rss" "log" (.error (.exception "enumeration failed"))).isOk =
      false := by
  exact ⟨rfl, rfl⟩

/-- C8 amended: an enumeration failure propagates uncaught out of the
driver and no run-summary record is written at all; when enumeration
succeeds, no per-item failure reaches the driver and exactly one
run-summary record with the loop's final counters is produced. -/
theorem spec_C8_enumeration_failure_propagates :
    (∀ st et ds lf e, mainRun st et ds lf (.error e) = .error e) ∧
    (∀ st et ds lf items,
      mainRun st et ds lf (.ok items) =
        .ok (job_metadata st et ds (items.countP stepSucceeds)
              (items.countP (fun it => !stepSucceeds it)) lf)) := by
  refine ⟨fun _ _ _ _ _ => rfl, fun st et ds lf items => ?_⟩
  have h : mainLoopE items (0, 0) =
      .ok (items.countP stepSucceeds, items.countP (fun it => !stepSucceeds it)) := by
    simpa using mainLoopE_eq items (0, 0)
  show (match mainLoopE items (0, 0) with
        | Except.error e => Except.error e
        | Except.ok c => Except.ok (job_metadata st et ds c.1 c.2 lf)) =
      Except.ok (job_metadata st et ds (items.countP stepSucceeds)
        (items.countP (fun it => !stepSucceeds it)) lf)
  rw [h]

/-- C9 counterexample: the persisted record's duration field is named
`duration_in_seconds`, not `duration_seconds` as the claim's field set
states. -/
theorem spec_C9_counterexample :
    (job_metadata 0 10 "rss" 4 1 "log").map Prod.fst =
      ["start_time", "end_time", "data_source", "duration_in_seconds",
       "successful_events", "failed_events", "logfile"] ∧
    "duration_seconds" ∉ (job_metadata 0 10 "rss" 4 1 "log").map Prod.fst := by
  constructor
  · rfl
  · decide

/-- C9 amended: every successful run persists exactly one record whose
field set is \x7bstart_time, end_time, data_source, duration_in_seconds,
successful_events, failed_events, logfile\x7d, with `successful_events` and
`failed_events` equal to the loop's final counters. -/
theorem spec_C9_run_summary_fields :
    ∀ st et ds lf items,
      mainRun st et ds lf (.ok items) =
        .ok (job_metadata st et ds (items.countP stepSucceeds)
              (items.countP (fun it => !stepSucceeds it)) lf) ∧
      (job_metadata st et ds (items.countP stepSucceeds)
          (items.countP (fun it => !stepSucceeds it)) lf).map Prod.fst =
        ["start_time", "end_time", "data_source", "duration_in_seconds",
         "successful_events", "failed_events", "logfile"] ∧
      getMeta (job_metadata st et ds (items.countP stepSucceeds)
          (items.countP (fun it => !stepSucceeds it)) lf) "successful_events" =
        some (.nat (items.countP stepSucceeds)) ∧
      getMeta (job_metadata st et ds (items.countP stepSucceeds)
          (items.countP (fun it => !stepSucceeds it)) lf) "failed_events" =
        some (.nat (items.countP (fun it => !stepSucceeds it))) := by
  intro st et ds lf items
  refine ⟨?_, rfl, rfl, rfl⟩
  have h : mainLoopE items (0, 0) =
      .ok (items.countP stepSucceeds, items.countP (fun it => !stepSucceeds it)) := by
    simpa using mainLoopE_eq items (0, 0)
  show (match mainLoopE items (0, 0) with
        | Except.error e => Except.error e
        | Except.ok c => Except.ok (job_metadata st et ds c.1 c.2 lf)) =
      Except.ok (job_metadata st et ds (items.countP stepSucceeds)
        (items.countP (fun it => !stepSucceeds it)) lf)
  rw [h]

/-- C3 (code bug): for a streamed event carrying exactly one structured
record, `on_response` hands `publish` the `json.dumps`-stringified
single-record list, and `__publish_twitter` iterates that string character
by character — producing 93 broker messages instead of 1 for this event. -/
theorem spec_C3_stream_publish_char_explosion :
    process_tweet tweet0 includes0 rules0 =
      .ok (jsonDumps (Json.arr [Json.obj (resultFields tweet0 includes0 "x")])) ∧
    (on_response fpEmpty resp0 0).map List.length = .ok 93 ∧
    (on_response fpEmpty resp0 0).map List.length ≠ .ok 1 := by
  refine ⟨rfl, by decide, by decide⟩

/-- C10: a streamed event's record is tagged with the first matching rule's
tag only — the processing result depends on no rule beyond the head — and
an event with an empty matching-rules list raises (`rules[0]` is
`IndexError`) instead of producing an untagged record. -/
theorem spec_C10_trend_first_rule (tweet : Tweet) (includes : Includes) :
    (∀ r rest,
      process_tweet tweet includes (r :: rest) =
        .ok (jsonDumps (Json.arr [Json.obj (resultFields tweet includes r.tag)])) ∧
      getField (resultFields tweet includes r.tag) "trend" =
        some (Json.str r.tag) ∧
      ∀ rest', process_tweet tweet includes (r :: rest) =
        process_tweet tweet includes (r :: rest')) ∧
    process_tweet tweet includes [] =
      .error (.exception "IndexError: list index out of range") := by
  refine ⟨fun r rest => ⟨rfl, ?_, fun rest' => rfl⟩, rfl⟩
  by_cases h : placeName includes tweet.geo = "" <;>
    simp [resultFields, getField, h]

lemma getField_setField (entry : List (String × Json)) (k : String) (v : Json) :
    getField (setField entry k v) k = some v := by
  unfold setField
  by_cases hany : entry.any (fun p => p.1 == k) = true
  · rw [if_pos hany]
    induction entry with
    | nil => simp at hany
    | cons p ps ih =>
      by_cases hp : (p.1 == k) = true
      · have hfp : (if (p.1 == k) = true then (k, v) else p) = (k, v) := if_pos hp
        rw [List.map_cons, hfp, getField, List.find?_cons_of_pos]
        · rfl
        · exact beq_self_eq_true k
      · have hps : ps.any (fun q => q.1 == k) = true := by
          simp only [List.any_cons, hp, Bool.false_or] at hany
          exact hany
        have hfp : (if (p.1 == k) = true then (k, v) else p) = p := if_neg hp
        rw [List.map_cons, hfp, getField, List.find?_cons_of_neg]
        · rw [getField] at ih
          exact ih hps
        · simpa using hp
  · rw [if_neg hany]
    have hnone : entry.find? (fun p => p.1 == k) = Option.none := by
      rw [List.find?_eq_none]
      intro p hp
      intro hcontra
      exact hany (List.any_eq_true.mpr ⟨p, hp, hcontra⟩)
    rw [getField, List.find?_append, hnone]
    simp

lemma publishRss_values (feedparse : String → ParsedFeed)
    (topic raw_feed : String) (keyStart : Nat) :
    (publishRss feedparse topic raw_feed keyStart).map (fun m => m.value) =
      (split_rss_feed feedparse raw_feed).map (fun e => jsonDumps (Json.obj e)) := by
  unfold publishRss
  rw [List.map_map]
  have h2 : ((split_rss_feed feedparse raw_feed).enum.map Prod.snd).map
      (fun e => jsonDumps (Json.obj e)) =
      (split_rss_feed feedparse raw_feed).map (fun e => jsonDumps (Json.obj e)) := by
    rw [List.enum_map_snd]
  rw [← h2, List.map_map]
  rfl

lemma publishRss_keys (feedparse : String → ParsedFeed)
    (topic raw_feed : String) (keyStart : Nat) :
    (publishRss feedparse topic raw_feed keyStart).map (fun m => m.key) =
      (List.range (split_rss_feed feedparse raw_feed).length).map
        (fun i => keyStart + i) := by
  unfold publishRss
  rw [List.map_map]
  have h2 : ((split_rss_feed feedparse raw_feed).enum.map Prod.fst).map
      (fun i => keyStart + i) =
      (List.range (split_rss_feed feedparse raw_feed).length).map
        (fun i => keyStart + i) := by
    rw [List.enum_map_fst]
  rw [← h2, List.map_map]
  rfl

/-- C6: a publish on a feed-family topic with a raw feed of N entries sends
exactly N messages — one per entry, value the entry's JSON with the
`feed_source` field set to the parsed feed's title — with pairwise-distinct
freshly generated keys; a publish on a default-family topic sends exactly
one message. -/
theorem spec_C6_publish_decomposition (feedparse : String → ParsedFeed)
    (topic raw_feed : String) (keyStart : Nat)
    (hfam : strContains topic "rss" = true) :
    Producer.publish feedparse topic (.str raw_feed) keyStart =
      .ok (publishRss feedparse topic raw_feed keyStart) ∧
    (publishRss feedparse topic raw_feed keyStart).length =
      (feedparse raw_feed).entries.length ∧
    (publishRss feedparse topic raw_feed keyStart).map (fun m => m.value) =
      (split_rss_feed feedparse raw_feed).map (fun e => jsonDumps (Json.obj e)) ∧
    (∀ entry ∈ split_rss_feed feedparse raw_feed,
      getField entry "feed_source" = some (Json.str (feedparse raw_feed).title)) ∧
    ((publishRss feedparse topic raw_feed keyStart).map (fun m => m.key)).Nodup ∧
    (∀ (topic2 s : String) (k : Nat), strContains topic2 "rss" = false →
      strContains topic2 "twitter" = false →
      Producer.publish feedparse topic2 (.str s) k = .ok [⟨topic2, k, s⟩]) := by
  refine ⟨?_, ?_, publishRss_values feedparse topic raw_feed keyStart, ?_, ?_, ?_⟩
  · simp [Producer.publish, hfam]
  · simp [publishRss, split_rss_feed]
  · intro entry hmem
    rw [split_rss_feed] at hmem
    obtain ⟨e, _he, rfl⟩ := List.mem_map.mp hmem
    exact getField_setField e "feed_source" (Json.str (feedparse raw_feed).title)
  · rw [publishRss_keys]
    exact List.Nodup.map (fun a b hab => by omega) (List.nodup_range _)
  · intro topic2 s k h1 h2
    simp [Producer.publish, h1, h2]

/-- C6 witness: the decomposition applied to a concrete three-entry feed on
topic `"rss"`. -/
theorem spec_C6_witness :
    Producer.publish fp3 "rss" (.str "raw") 0 = .ok (publishRss fp3 "rss" "raw" 0) ∧
    (publishRss fp3 "rss" "raw" 0).length = (fp3 "raw").entries.length ∧
    (publishRss fp3 "rss" "raw" 0).map (fun m => m.value) =
      (split_rss_feed fp3 "raw").map (fun e => jsonDumps (Json.obj e)) ∧
    (∀ entry ∈ split_rss_feed fp3 "raw",
      getField entry "feed_source" = some (Json.str (fp3 "raw").title)) ∧
    ((publishRss fp3 "rss" "raw" 0).map (fun m => m.key)).Nodup ∧
    (∀ (topic2 s : String) (k : Nat), strContains topic2 "rss" = false →
      strContains topic2 "twitter" = false →
      Producer.publish fp3 topic2 (.str s) k = .ok [⟨topic2, k, s⟩]) :=
  spec_C6_publish_decomposition fp3 "rss" "raw" 0 (by decide)

lemma reconcileLoop_fst (rules : List StreamRule) :
    ∀ trends : List String, (rules.map (fun r => r.tag)).Nodup →
      (reconcileLoop rules trends).1 =
        (rules.filter (fun r => decide (r.tag ∉ trends))).map (fun r => r.id) := by
  induction rules with
  | nil => intro trends _; simp [reconcileLoop]
  | cons r rs ih =>
    intro trends hA
    rw [List.map_cons, List.nodup_cons] at hA
    obtain ⟨hrtag, hA2⟩ := hA
    by_cases hmem : r.tag ∈ trends
    · rw [reconcileLoop, if_pos hmem, ih (trends.erase r.tag) hA2]
      have hne : ∀ x ∈ rs, (decide (x.tag ∉ trends.erase r.tag)) =
          (decide (x.tag ∉ trends)) := by
        intro x hx
        have : x.tag ≠ r.tag := fun hcontra =>
          hrtag (hcontra ▸ List.mem_map_of_mem (fun r => r.tag) hx)
        simp [List.mem_erase_of_ne this]
      rw [List.filter_congr hne, List.filter_cons]
      simp [hmem]
    · rw [reconcileLoop, if_neg hmem]
      simp only
      rw [ih trends hA2, List.filter_cons]
      simp [hmem]
  
lemma reconcileLoop_snd (rules : List StreamRule) :
    ∀ trends : List String, (rules.map (fun r => r.tag)).Nodup → trends.Nodup →
      (reconcileLoop rules trends).2 =
        trends.filter (fun t => decide (t ∉ rules.map (fun r => r.tag))) := by
  induction rules with
  | nil => intro trends _ _; simp [reconcileLoop]
  | cons r rs ih =>
    intro trends hA hC
    rw [List.map_cons, List.nodup_cons] at hA
    obtain ⟨hrtag, hA2⟩ := hA
    by_cases hmem : r.tag ∈ trends
    · rw [reconcileLoop, if_pos hmem, ih (trends.erase r.tag) hA2 (hC.erase _),
        hC.erase_eq_filter, List.filter_filter]
      refine List.filter_congr ?_
      intro t _ht
      by_cases h1 : t = r.tag
      · simp [h1, List.mem_cons]
      · by_cases h2 : t ∈ rs.map (fun r => r.tag) <;>
          simp [h1, h2, List.mem_cons]
    · rw [reconcileLoop, if_neg hmem]
      simp only
      rw [ih trends hA2 hC]
      refine List.filter_congr ?_
      intro t ht
      have h1 : t ≠ r.tag := fun hcontra => hmem (hcontra ▸ ht)
      by_cases h2 : t ∈ rs.map (fun r => r.tag) <;>
        simp [h1, h2, List.mem_cons]

lemma newRulesFor_tags (remaining : List String) (nextId : Nat) :
    (newRulesFor remaining nextId).map (fun r => r.tag) = remaining := by
  unfold newRulesFor
  rw [List.map_map]
  exact List.enum_map_snd remaining

lemma newRulesFor_length (remaining : List String) (nextId : Nat) :
    (newRulesFor remaining nextId).length = remaining.length := by
  simp [newRulesFor]

lemma getCurrentTrends_state (rules : List StreamRule) (trends : List String)
    (nextId : Nat) (hA : (rules.map (fun r => r.tag)).Nodup) (hC : trends.Nodup)
    (hI : (rules.map (fun r => r.id)).Nodup) :
    (getCurrentTrends rules trends nextId).state =
      rules.filter (fun r => decide (r.tag ∈ trends)) ++
        newRulesFor
          (trends.filter (fun t => decide (t ∉ rules.map (fun r => r.tag))))
          nextId := by
  simp only [getCurrentTrends]
  rw [reconcileLoop_fst rules trends hA, reconcileLoop_snd rules trends hA hC]
  have hstate1 :
      (if ((rules.filter (fun r => decide (r.tag ∉ trends))).map
            (fun r => r.id)).length > 0 then
        rules.filter (fun r => decide (r.id ∉
          (rules.filter (fun r => decide (r.tag ∉ trends))).map (fun r => r.id)))
      else rules) = rules.filter (fun r => decide (r.tag ∈ trends)) := by
    by_cases hdel : ((rules.filter (fun r => decide (r.tag ∉ trends))).map
        (fun r => r.id)).length > 0
    · rw [if_pos hdel]
      refine List.filter_congr ?_
      intro r hr
      have hiff : r.id ∈ (rules.filter (fun x => decide (x.tag ∉ trends))).map
          (fun x => x.id) ↔ r.tag ∉ trends := by
        constructor
        · intro hmem
          obtain ⟨r', hr', hid⟩ := List.mem_map.mp hmem
          have hr'' : r' ∈ rules := List.mem_of_mem_filter hr'
          have heq : r' = r := List.inj_on_of_nodup_map hI hr'' hr hid
          subst heq
          simpa using (List.mem_filter.mp hr').2
        · intro hnot
          exact List.mem_map_of_mem _ (List.mem_filter.mpr ⟨hr, by simpa using hnot⟩)
      rw [decide_eq_decide, hiff]
      exact not_not
    · rw [if_neg hdel]
      have hlen : ((rules.filter (fun r => decide (r.tag ∉ trends))).map
          (fun r => r.id)).length = 0 := by omega
      have hnil : rules.filter (fun r => decide (r.tag ∉ trends)) = [] :=
        List.map_eq_nil_iff.mp (List.length_eq_zero.mp hlen)
      symm
      rw [List.filter_eq_self]
      intro r hr
      have : r ∉ rules.filter (fun x => decide (x.tag ∉ trends)) := by
        rw [hnil]; exact List.not_mem_nil r
      have hmemtag : r.tag ∈ trends := by
        by_contra hcontra
        exact this (List.mem_filter.mpr ⟨hr, by simpa using hcontra⟩)
      simpa using hmemtag
  rw [hstate1]
  by_cases hnew : (newRulesFor
      (trends.filter (fun t => decide (t ∉ rules.map (fun r => r.tag))))
      nextId).length > 0
  · rw [if_pos hnew]
  · rw [if_neg hnew]
    have hlen2 : (newRulesFor
        (trends.filter (fun t => decide (t ∉ rules.map (fun r => r.tag))))
        nextId).length = 0 := by omega
    rw [List.length_eq_zero.mp hlen2, List.append_nil]

lemma getCurrentTrends_calls (rules : List StreamRule) (trends : List String)
    (nextId : Nat) (hA : (rules.map (fun r => r.tag)).Nodup)
    (hC : trends.Nodup) :
    (getCurrentTrends rules trends nextId).calls =
      (if ((rules.filter (fun r => decide (r.tag ∉ trends))).map
            (fun r => r.id)).length > 0 then
        [ClientCall.deleteRules ((rules.filter (fun r => decide (r.tag ∉ trends))).map
          (fun r => r.id))]
      else []) ++
      (if (trends.filter (fun t => decide (t ∉ rules.map (fun r => r.tag)))).length > 0 then
        [ClientCall.addRules
          ((trends.filter (fun t => decide (t ∉ rules.map (fun r => r.tag)))).map
            (fun t => (ruleQuery t, t)))]
      else []) := by
  simp only [getCurrentTrends]
  rw [reconcileLoop_fst rules trends hA, reconcileLoop_snd rules trends hA hC,
    newRulesFor_length]

lemma getCurrentTrends_tags_nodup (rules : List StreamRule)
    (trends : List String) (nextId : Nat)
    (hA : (rules.map (fun r => r.tag)).Nodup) (hC : trends.Nodup)
    (hI : (rules.map (fun r => r.id)).Nodup) :
    ((getCurrentTrends rules trends nextId).state.map (fun r => r.tag)).Nodup := by
  rw [getCurrentTrends_state rules trends nextId hA hC hI, List.map_append,
    newRulesFor_tags]
  rw [List.nodup_append]
  refine ⟨hA.sublist ((List.filter_sublist _).map _), hC.filter _, ?_⟩
  intro t ht1 ht2
  have h1 : t ∈ rules.map (fun r => r.tag) := by
    obtain ⟨r, hr, rfl⟩ := List.mem_map.mp ht1
    exact List.mem_map_of_mem _ (List.mem_of_mem_filter hr)
  have h2 : t ∉ rules.map (fun r => r.tag) := by
    simpa using (List.mem_filter.mp ht2).2
  exact h2 h1

lemma getCurrentTrends_tags_mem (rules : List StreamRule)
    (trends : List String) (nextId : Nat)
    (hA : (rules.map (fun r => r.tag)).Nodup) (hC : trends.Nodup)
    (hI : (rules.map (fun r => r.id)).Nodup) :
    ∀ t, t ∈ (getCurrentTrends rules trends nextId).state.map (fun r => r.tag) ↔
      t ∈ trends := by
  intro t
  rw [getCurrentTrends_state rules trends nextId hA hC hI, List.map_append,
    newRulesFor_tags, List.mem_append]
  constructor
  · rintro (h | h)
    · obtain ⟨r, hr, rfl⟩ := List.mem_map.mp h
      simpa using (List.mem_filter.mp hr).2
    · exact List.mem_of_mem_filter h
  · intro ht
    by_cases hAt : t ∈ rules.map (fun r => r.tag)
    · left
      obtain ⟨r, hr, rfl⟩ := List.mem_map.mp hAt
      exact List.mem_map_of_mem _ (List.mem_filter.mpr ⟨hr, by simpa using ht⟩)
    · right
      exact List.mem_filter.mpr ⟨ht, by simpa using hAt⟩

lemma getCurrentTrends_noop (rules : List StreamRule) (trends : List String)
    (nextId : Nat) (hA : (rules.map (fun r => r.tag)).Nodup) (hC : trends.Nodup)
    (hmem : ∀ t, t ∈ rules.map (fun r => r.tag) ↔ t ∈ trends) :
    getCurrentTrends rules trends nextId = ⟨rules, [], nextId⟩ := by
  simp only [getCurrentTrends]
  rw [reconcileLoop_fst rules trends hA, reconcileLoop_snd rules trends hA hC]
  have hdel : rules.filter (fun r => decide (r.tag ∉ trends)) = [] := by
    rw [List.filter_eq_nil_iff]
    intro r hr
    simpa using (hmem r.tag).mp (List.mem_map_of_mem _ hr)
  have hrem : trends.filter (fun t => decide (t ∉ rules.map (fun r => r.tag))) = [] := by
    rw [List.filter_eq_nil_iff]
    intro t ht
    simpa using (hmem t).mpr ht
  rw [hdel, hrem]
  simp [newRulesFor]

/-- C2: one reconciliation pass on distinct-tag, distinct-id active rules
and a duplicate-free trend list deletes exactly the rules whose tags left
the trend set, adds exactly one rule per new topic (tagged with it, built
after all deletions), keeps every persisting rule untouched, and leaves an
active rule set whose tag list is duplicate-free and coincides with the
trend set. -/
theorem spec_C2_reconciliation_correctness (rules : List StreamRule)
    (trends : List String) (nextId : Nat)
    (hA : (rules.map (fun r => r.tag)).Nodup) (hC : trends.Nodup)
    (hI : (rules.map (fun r => r.id)).Nodup) :
    (getCurrentTrends rules trends nextId).state =
      rules.filter (fun r => decide (r.tag ∈ trends)) ++
        newRulesFor
          (trends.filter (fun t => decide (t ∉ rules.map (fun r => r.tag))))
          nextId ∧
    (newRulesFor
        (trends.filter (fun t => decide (t ∉ rules.map (fun r => r.tag))))
        nextId).map (fun r => r.tag) =
      trends.filter (fun t => decide (t ∉ rules.map (fun r => r.tag))) ∧
    (getCurrentTrends rules trends nextId).calls =
      (if ((rules.filter (fun r => decide (r.tag ∉ trends))).map
            (fun r => r.id)).length > 0 then
        [ClientCall.deleteRules
          ((rules.filter (fun r => decide (r.tag ∉ trends))).map (fun r => r.id))]
      else []) ++
      (if (trends.filter (fun t => decide (t ∉ rules.map (fun r => r.tag)))).length > 0 then
        [ClientCall.addRules
          ((trends.filter (fun t => decide (t ∉ rules.map (fun r => r.tag)))).map
            (fun t => (ruleQuery t, t)))]
      else []) ∧
    (∀ r ∈ rules, r.tag ∈ trends → r ∈ (getCurrentTrends rules trends nextId).state) ∧
    (∀ r ∈ rules, r.tag ∉ trends → r ∉ (getCurrentTrends rules trends nextId).state) ∧
    ((getCurrentTrends rules trends nextId).state.map (fun r => r.tag)).Nodup ∧
    (∀ t, t ∈ (getCurrentTrends rules trends nextId).state.map (fun r => r.tag) ↔
      t ∈ trends) := by
  refine ⟨getCurrentTrends_state rules trends nextId hA hC hI,
    newRulesFor_tags _ nextId,
    getCurrentTrends_calls rules trends nextId hA hC, ?_, ?_,
    getCurrentTrends_tags_nodup rules trends nextId hA hC hI,
    getCurrentTrends_tags_mem rules trends nextId hA hC hI⟩
  · intro r hr htag
    rw [getCurrentTrends_state rules trends nextId hA hC hI, List.mem_append]
    exact Or.inl (List.mem_filter.mpr ⟨hr, by simpa using htag⟩)
  · intro r hr htag
    rw [getCurrentTrends_state rules trends nextId hA hC hI, List.mem_append]
    rintro (h | h)
    · exact htag (by simpa using (List.mem_filter.mp h).2)
    · have : r.tag ∈ (newRulesFor
          (trends.filter (fun t => decide (t ∉ rules.map (fun r => r.tag))))
          nextId).map (fun r => r.tag) := List.mem_map_of_mem _ h
      rw [newRulesFor_tags] at this
      exact htag (List.mem_of_mem_filter this)

/-- C2 witness: the pass applied to active tags \x7ba, b, c\x7d and trends
\x7bb, c, d\x7d. -/
theorem spec_C2_witness :
    (getCurrentTrends [⟨1, "qa", "a"⟩, ⟨2, "qb", "b"⟩, ⟨3, "qc", "c"⟩]
        ["b", "c", "d"] 10).state =
      [⟨1, "qa", "a"⟩, ⟨2, "qb", "b"⟩, ⟨3, "qc", "c"⟩].filter
          (fun r => decide (r.tag ∈ ["b", "c", "d"])) ++
        newRulesFor
          (["b", "c", "d"].filter (fun t => decide (t ∉
            [(⟨1, "qa", "a"⟩ : StreamRule), ⟨2, "qb", "b"⟩, ⟨3, "qc", "c"⟩].map
              (fun r => r.tag))))
          10 ∧
    (newRulesFor
        (["b", "c", "d"].filter (fun t => decide (t ∉
          [(⟨1, "qa", "a"⟩ : StreamRule), ⟨2, "qb", "b"⟩, ⟨3, "qc", "c"⟩].map
            (fun r => r.tag))))
        10).map (fun r => r.tag) =
      ["b", "c", "d"].filter (fun t => decide (t ∉
        [(⟨1, "qa", "a"⟩ : StreamRule), ⟨2, "qb", "b"⟩, ⟨3, "qc", "c"⟩].map
          (fun r => r.tag))) ∧
    (getCurrentTrends [⟨1, "qa", "a"⟩, ⟨2, "qb", "b"⟩, ⟨3, "qc", "c"⟩]
        ["b", "c", "d"] 10).calls =
      (if (([(⟨1, "qa", "a"⟩ : StreamRule), ⟨2, "qb", "b"⟩, ⟨3, "qc", "c"⟩].filter
            (fun r => decide (r.tag ∉ ["b", "c", "d"]))).map
            (fun r => r.id)).length > 0 then
        [ClientCall.deleteRules
          (([(⟨1, "qa", "a"⟩ : StreamRule), ⟨2, "qb", "b"⟩, ⟨3, "qc", "c"⟩].filter
            (fun r => decide (r.tag ∉ ["b", "c", "d"]))).map (fun r => r.id))]
      else []) ++
      (if (["b", "c", "d"].filter (fun t => decide (t ∉
          [(⟨1, "qa", "a"⟩ : StreamRule), ⟨2, "qb", "b"⟩, ⟨3, "qc", "c"⟩].map
            (fun r => r.tag)))).length > 0 then
        [ClientCall.addRules
          ((["b", "c", "d"].filter (fun t => decide (t ∉
            [(⟨1, "qa", "a"⟩ : StreamRule), ⟨2, "qb", "b"⟩, ⟨3, "qc", "c"⟩].map
              (fun r => r.tag)))).map (fun t => (ruleQuery t, t)))]
      else []) ∧
    (∀ r ∈ [(⟨1, "qa", "a"⟩ : StreamRule), ⟨2, "qb", "b"⟩, ⟨3, "qc", "c"⟩],
      r.tag ∈ ["b", "c", "d"] →
      r ∈ (getCurrentTrends [⟨1, "qa", "a"⟩, ⟨2, "qb", "b"⟩, ⟨3, "qc", "c"⟩]
        ["b", "c", "d"] 10).state) ∧
    (∀ r ∈ [(⟨1, "qa", "a"⟩ : StreamRule), ⟨2, "qb", "b"⟩, ⟨3, "qc", "c"⟩],
      r.tag ∉ ["b", "c", "d"] →
      r ∉ (getCurrentTrends [⟨1, "qa", "a"⟩, ⟨2, "qb", "b"⟩, ⟨3, "qc", "c"⟩]
        ["b", "c", "d"] 10).state) ∧
    ((getCurrentTrends [⟨1, "qa", "a"⟩, ⟨2, "qb", "b"⟩, ⟨3, "qc", "c"⟩]
        ["b", "c", "d"] 10).state.map (fun r => r.tag)).Nodup ∧
    (∀ t, t ∈ (getCurrentTrends [⟨1, "qa", "a"⟩, ⟨2, "qb", "b"⟩, ⟨3, "qc", "c"⟩]
        ["b", "c", "d"] 10).state.map (fun r => r.tag) ↔ t ∈ ["b", "c", "d"]) :=
  spec_C2_reconciliation_correctness
    [⟨1, "qa", "a"⟩, ⟨2, "qb", "b"⟩, ⟨3, "qc", "c"⟩] ["b", "c", "d"] 10
    (by decide) (by decide) (by decide)

/-- C7: running a second reconciliation pass with the same trend list right
after a first pass is a no-op: the active rule set is unchanged and no
`delete_rules`/`add_rules` call is issued at all. -/
theorem spec_C7_reconciliation_idempotent (rules : List StreamRule)
    (trends : List String) (nextId : Nat)
    (hA : (rules.map (fun r => r.tag)).Nodup) (hC : trends.Nodup)
    (hI : (rules.map (fun r => r.id)).Nodup) :
    (getCurrentTrends (getCurrentTrends rules trends nextId).state trends
        (getCurrentTrends rules trends nextId).nextId).state =
      (getCurrentTrends rules trends nextId).state ∧
    (getCurrentTrends (getCurrentTrends rules trends nextId).state trends
        (getCurrentTrends rules trends nextId).nextId).calls = [] := by
  have hnoop := getCurrentTrends_noop (getCurrentTrends rules trends nextId).state
    trends (getCurrentTrends rules trends nextId).nextId
    (getCurrentTrends_tags_nodup rules trends nextId hA hC hI) hC
    (getCurrentTrends_tags_mem rules trends nextId hA hC hI)
  rw [hnoop]
  exact ⟨rfl, rfl⟩

/-- C7 witness: the double pass at active tags \x7ba, b, c\x7d and trends
\x7bb, c, d\x7d. -/
theorem spec_C7_witness :
    (getCurrentTrends (getCurrentTrends [⟨1, "qa", "a"⟩, ⟨2, "qb", "b"⟩, ⟨3, "qc", "c"⟩]
        ["b", "c", "d"] 10).state ["b", "c", "d"]
        (getCurrentTrends [⟨1, "qa", "a"⟩, ⟨2, "qb", "b"⟩, ⟨3, "qc", "c"⟩]
          ["b", "c", "d"] 10).nextId).state =
      (getCurrentTrends [⟨1, "qa", "a"⟩, ⟨2, "qb", "b"⟩, ⟨3, "qc", "c"⟩]
        ["b", "c", "d"] 10).state ∧
    (getCurrentTrends (getCurrentTrends [⟨1, "qa", "a"⟩, ⟨2, "qb", "b"⟩, ⟨3, "qc", "c"⟩]
        ["b", "c", "d"] 10).state ["b", "c", "d"]
        (getCurrentTrends [⟨1, "qa", "a"⟩, ⟨2, "qb", "b"⟩, ⟨3, "qc", "c"⟩]
          ["b", "c", "d"] 10).nextId).calls = [] :=
  spec_C7_reconciliation_idempotent
    [⟨1, "qa", "a"⟩, ⟨2, "qb", "b"⟩, ⟨3, "qc", "c"⟩] ["b", "c", "d"] 10
    (by decide) (by decide) (by decide)
